import Mathlib

/-!
Shallow embedding of the `ted` editor (maldidev/ted), translated from
`src/ted.py` (curses front-end) and, for syntax-rule selection, from
`src/ted-win.py` (the Windows front-end, which holds the only definition of
`TedConfig.get_rules_for_file`).

Modelling conventions:
* Python strings are sequences of code points, embedded as `List Char`.
* The editor object `Ted` becomes the structure `EdState`; its mutating
  methods become pure functions `EdState → EdState`.
* Cursor coordinates are `Nat`: every place the Python code moves the cursor
  down it writes `max(0, e - 1)`, which is exactly truncated `Nat`
  subtraction, and no operation ever produces a negative value.
* The two nested blocking input loops of the source (`get_command`, and the
  extra `getch()` inside the `g` branch of `handle_normal_mode`) are
  embedded as extra controller states (`CMode.cmdline`, `CMode.gpending`),
  so that the session consumes one key per step.
* Filesystem writes are abstracted by an oracle `FS`: given the current
  filename it returns `none` on success and `some msg` when `open`/`write`
  raises an exception with message `msg` (this includes `open(None)`,
  which raises `TypeError` in Python).
* An uncaught Python exception (the calls to the methods
  `get_command_input` and `get_filename_for_save`, which are not defined
  anywhere in `ted.py`) is recorded in the field `exc`; in the source such
  an exception propagates to `Ted.run`, which restores the terminal and
  exits the process, so once `exc` is set the session loop stops.
-/

namespace Ted

/-- A line of text: a Python `str` as a sequence of code points. -/
abbrev Line := List Char

/-- Convert a Lean string literal to the `List Char` representation. -/
def toL (s : String) : Line := s.toList

/-- Key events delivered by the terminal backend (`stdscr.getch` in
`ted.py`): a character key, the four arrow keys, Enter (10 / KEY_ENTER),
Backspace (127 / KEY_BACKSPACE) and Escape (27). -/
inductive Key where
  | char (c : Char)
  | up | down | left | right
  | enter | backspace | esc
  deriving DecidableEq, Repr

/-- Uncaught Python exception: `AttributeError` for a missing method,
carrying the missing attribute's name. -/
inductive PyExc where
  | attrError (name : Line)
  deriving DecidableEq, Repr

/-- Controller state.  `normal` and `insert` mirror the values of the
source field `self.mode`; `cmdline acc` is the state of being inside the
`get_command` read loop with accumulated command text `acc`; `gpending` is
the state of being inside the blocking `getch()` of the `g` branch of
`handle_normal_mode`. -/
inductive CMode where
  | normal | insert
  | cmdline (acc : Line)
  | gpending
  deriving DecidableEq, Repr

/-- The editor state: the fields of the `Ted` object in `ted.py`
(`filename`, `content`, `mode`, `cursor_y`, `cursor_x`, `message`,
`quit`, `dirty`), plus `exc` recording an uncaught exception. -/
structure EdState where
  filename : Option Line
  content : List Line
  mode : CMode
  cursor_y : Nat
  cursor_x : Nat
  message : Line
  quit : Bool
  dirty : Bool
  exc : Option PyExc
  deriving DecidableEq, Repr

/-- Write-attempt oracle: given the current filename, `none` means the
write succeeded, `some msg` means an exception with message `msg` was
raised (opening `None` always raises in Python). -/
abbrev FS := Option Line → Option Line

/-- `self.content[i]`, with index in range whenever the cursor invariant
holds. -/
def lineAt (content : List Line) (i : Nat) : Line := content.getD i []

/-- Python truthiness of `self.filename` (`None` and `""` are falsy). -/
def truthyFilename : Option Line → Bool
  | none => false
  | some f => !f.isEmpty

/-- `Ted.ensure_cursor_in_bounds` (ted.py:130-133): clamp `cursor_y` into
`[0, len(content)-1]` and `cursor_x` into `[0, len(content[cursor_y])]`. -/
def ensureCursorInBounds (s : EdState) : EdState :=
  let y := min s.cursor_y (s.content.length - 1)
  { s with cursor_y := y, cursor_x := min s.cursor_x (lineAt s.content y).length }

/-- Insert `a` at index `n`: Python `list.insert(n, a)` (for `n ≥ len` it
appends, as does `take`/`drop`). -/
def insertAt (n : Nat) (a : α) (l : List α) : List α :=
  l.take n ++ a :: l.drop n

/-- The printable-character test of the source: `32 <= key <= 126`. -/
def isPrintable (c : Char) : Bool := 32 ≤ c.toNat && c.toNat ≤ 126

/-- Insert-mode printable-character branch (ted.py:293-297): splice the
character into the current line at `cursor_x`, advance the cursor, set
dirty. -/
def insertChar (c : Char) (s : EdState) : EdState :=
  let line := lineAt s.content s.cursor_y
  { s with content := s.content.set s.cursor_y (line.take s.cursor_x ++ c :: line.drop s.cursor_x),
           cursor_x := s.cursor_x + 1, dirty := true }

/-- Normal-mode `x` branch (ted.py:225-229): if `cursor_x` is inside the
line, remove the unit under the cursor and set dirty; no-op at end of
line. -/
def deleteCharUnderCursor (s : EdState) : EdState :=
  let line := lineAt s.content s.cursor_y
  if s.cursor_x < line.length then
    { s with content := s.content.set s.cursor_y (line.take s.cursor_x ++ line.drop (s.cursor_x + 1)),
             dirty := true }
  else s

/-- Insert-mode Backspace branch (ted.py:264-275).  If `cursor_x > 0`,
delete the unit left of the cursor and step back; otherwise, if
`cursor_y > 0`, set `cursor_x` to the previous line's length, append the
current line to the previous one, delete the current line and move up;
otherwise do nothing. -/
def backspace (s : EdState) : EdState :=
  if 0 < s.cursor_x then
    let line := lineAt s.content s.cursor_y
    { s with content := s.content.set s.cursor_y (line.take (s.cursor_x - 1) ++ line.drop s.cursor_x),
             cursor_x := s.cursor_x - 1, dirty := true }
  else if 0 < s.cursor_y then
    let prev := lineAt s.content (s.cursor_y - 1)
    let cur := lineAt s.content s.cursor_y
    { s with cursor_x := prev.length,
             content := (s.content.set (s.cursor_y - 1) (prev ++ cur)).eraseIdx s.cursor_y,
             cursor_y := s.cursor_y - 1, dirty := true }
  else s

/-- Insert-mode Enter branch (ted.py:276-282): insert the suffix of the
current line from `cursor_x` as a new line below, truncate the current
line to the prefix, move to the start of the new line, set dirty. -/
def splitLine (s : EdState) : EdState :=
  let line := lineAt s.content s.cursor_y
  { s with content := insertAt (s.cursor_y + 1) (line.drop s.cursor_x)
                        (s.content.set s.cursor_y (line.take s.cursor_x)),
           cursor_y := s.cursor_y + 1, cursor_x := 0, dirty := true }

/-- Normal-mode `o` branch (ted.py:230-235): open an empty line below,
move to it, enter insert mode, set dirty. -/
def openLineBelow (s : EdState) : EdState :=
  { s with content := insertAt (s.cursor_y + 1) [] s.content,
           cursor_y := s.cursor_y + 1, cursor_x := 0,
           mode := CMode.insert, dirty := true }

/-- Normal-mode `O` branch (ted.py:236-240): open an empty line at the
current row, set `cursor_x` to 0, enter insert mode, set dirty. -/
def openLineAbove (s : EdState) : EdState :=
  { s with content := insertAt s.cursor_y [] s.content,
           cursor_x := 0, mode := CMode.insert, dirty := true }

/-- Cursor left (`h`/Left): `max(0, cursor_x - 1)`. -/
def moveLeft (s : EdState) : EdState := { s with cursor_x := s.cursor_x - 1 }

/-- Cursor right (`l`/Right): `min(len(line), cursor_x + 1)`. -/
def moveRight (s : EdState) : EdState :=
  { s with cursor_x := min (lineAt s.content s.cursor_y).length (s.cursor_x + 1) }

/-- Cursor down (`j`/Down): `min(len(content)-1, cursor_y + 1)`, then
reclamp the column to the new line's length. -/
def moveDown (s : EdState) : EdState :=
  let y := min (s.content.length - 1) (s.cursor_y + 1)
  { s with cursor_y := y, cursor_x := min s.cursor_x (lineAt s.content y).length }

/-- Cursor up (`k`/Up): `max(0, cursor_y - 1)`, then reclamp the column. -/
def moveUp (s : EdState) : EdState :=
  let y := s.cursor_y - 1
  { s with cursor_y := y, cursor_x := min s.cursor_x (lineAt s.content y).length }

/-- Normal-mode `0`: column 0. -/
def colHome (s : EdState) : EdState := { s with cursor_x := 0 }

/-- Normal-mode `$`: column = line length. -/
def colEnd (s : EdState) : EdState :=
  { s with cursor_x := (lineAt s.content s.cursor_y).length }

/-- Normal-mode `G` (ted.py:245-247): last row, reclamp the column. -/
def gotoLastLine (s : EdState) : EdState :=
  let y := s.content.length - 1
  { s with cursor_y := y, cursor_x := min s.cursor_x (lineAt s.content y).length }

/-- Completion of the `gg` sequence (ted.py:250-252): row 0, reclamp the
column to line 0's length. -/
def gotoFirstLine (s : EdState) : EdState :=
  { s with cursor_y := 0, cursor_x := min s.cursor_x (lineAt s.content 0).length }

/-- Normal-mode `a` (ted.py:210-212): `cursor_x = min(len(line),
cursor_x + 1)` and enter insert mode. -/
def appendAfterCursor (s : EdState) : EdState :=
  { s with cursor_x := min (lineAt s.content s.cursor_y).length (s.cursor_x + 1),
           mode := CMode.insert }

/-- The cursor/buffer invariant of the specification: at least one line,
row strictly inside the line sequence, column at most the current line's
length. -/
def Inv (s : EdState) : Prop :=
  s.content ≠ [] ∧ s.cursor_y < s.content.length ∧
    s.cursor_x ≤ (lineAt s.content s.cursor_y).length

instance (s : EdState) : Decidable (Inv s) := by unfold Inv; infer_instance

/-! ### File contents: `"\n".join` and `str.splitlines` -/

/-- The characters Python `str.splitlines` treats as line boundaries. -/
def isPyLineBreak (c : Char) : Bool :=
  c = '\n' || c = '\r' || c = '\x0b' || c = '\x0c' ||
  c = '\x1c' || c = '\x1d' || c = '\x1e' || c = '\x85' ||
  c = '\u2028' || c = '\u2029'

/-- `"\n".join(content)`: the text `save_file` writes (ted.py:352). -/
def joinLines (content : List Line) : Line := List.intercalate ['\n'] content

/-- Python `str.splitlines`, restricted to texts whose only line-break
character is `'\n'` (every text `joinLines` produces from lines free of
line-break characters is of this shape): split on `'\n'`, except that a
trailing `'\n'` does not open a final empty line and the empty text has no
lines at all. -/
def splitlines (text : Line) : List Line :=
  if text = [] then []
  else
    let parts := text.splitOn '\n'
    if parts.getLastD [] = [] then parts.dropLast else parts

/-- The buffer `Ted.__init__` builds from a file's text (ted.py:101-105):
`f.read().splitlines()`, with an empty result coerced to `[""]`. -/
def loadContent (text : Line) : List Line :=
  let c := splitlines text
  if c = [] then [[]] else c

/-- The trailing-newline normalization: a final empty line (the image of a
trailing `'\n'` in the file) is dropped, unless it is the only line. -/
def normTrailing (content : List Line) : List Line :=
  if 2 ≤ content.length ∧ content.getLastD [] = [] then content.dropLast
  else content

/-! ### Saving and the command sub-language -/

/-- Decimal digits of `n`, for the `f"... {len(self.content)}L written"`
message. -/
def natDigits (n : Nat) : Line := Nat.toDigits 10 n

/-- The filename as interpolated into an f-string (`None` prints as
`"None"`; that case is unreachable on the success path, since opening
`None` raises). -/
def fnameText : Option Line → Line
  | none => toL "None"
  | some f => f

/-- `Ted.save_file` (ted.py:348-356): attempt the write; on success set
the `written` message and clear dirty; on any exception set the
`Error writing file:` message and change nothing else. -/
def saveFile (fs : FS) (s : EdState) : EdState :=
  match fs s.filename with
  | none =>
      { s with message := '\'' :: fnameText s.filename ++ '\'' :: ' ' ::
                            natDigits s.content.length ++ toL "L written",
               dirty := false }
  | some e => { s with message := toL "Error writing file: " ++ e }

/-- Python `str.strip()` whitespace set (ASCII part; enough for command
text, which `get_command` builds from keys 32..126). -/
def isPySpace (c : Char) : Bool :=
  c = ' ' || c = '\t' || c = '\n' || c = '\r' || c = '\x0b' || c = '\x0c'

/-- Python `str.strip()`: remove leading and trailing whitespace. -/
def pyStrip (l : Line) : Line :=
  ((l.dropWhile isPySpace).reverse.dropWhile isPySpace).reverse

/-- `Ted.process_command` (ted.py:320-346).  The branches for `w` and `wq`
with a falsy filename call `self.get_command_input()` resp.
`self.get_filename_for_save()`; neither method exists in `ted.py`, so the
call raises `AttributeError`, recorded in `exc` (for `wq` the check
`self.filename or self.get_filename_for_save()` short-circuits, so a
truthy filename never reaches the missing method). -/
def processCommand (fs : FS) (cmd : Line) (s : EdState) : EdState :=
  if cmd = ['q'] then
    if s.dirty then
      { s with message := toL "No write since last change (add ! to override)" }
    else { s with quit := true }
  else if cmd = ['q', '!'] then { s with quit := true }
  else if cmd = ['w'] then
    if truthyFilename s.filename then saveFile fs s
    else { s with message := toL "Enter filename: ",
                  exc := some (PyExc.attrError (toL "get_command_input")) }
  else if cmd = ['w', 'q'] then
    if truthyFilename s.filename then { saveFile fs s with quit := true }
    else { s with exc := some (PyExc.attrError (toL "get_filename_for_save")) }
  else if cmd.take 2 = ['w', ' '] then
    saveFile fs { s with filename := some (pyStrip (cmd.drop 2)) }
  else { s with message := toL "Not an editor command: " ++ cmd }

/-! ### The session state machine -/

/-- Which branch of the `elif` chain of `handle_normal_mode`
(ted.py:203-256) a single key selects, excluding the two branches that
read further input themselves (`:` and `g`), which the session step
handles by entering `cmdline`/`gpending`.  Unhandled keys fall through
with no effect (so does Escape). -/
inductive NAct where
  | toInsert | addAfter | goLeft | goDown | goUp | goRight
  | del | below | above | toEnd | toHome | toLast | ignore
  deriving DecidableEq, Repr

/-- The key tests of `handle_normal_mode`'s `elif` chain, in source
order. -/
def normalAct (k : Key) : NAct :=
  if k = Key.char 'i' then NAct.toInsert
  else if k = Key.char 'a' then NAct.addAfter
  else if k = Key.char 'h' ∨ k = Key.left then NAct.goLeft
  else if k = Key.char 'j' ∨ k = Key.down then NAct.goDown
  else if k = Key.char 'k' ∨ k = Key.up then NAct.goUp
  else if k = Key.char 'l' ∨ k = Key.right then NAct.goRight
  else if k = Key.char 'x' then NAct.del
  else if k = Key.char 'o' then NAct.below
  else if k = Key.char 'O' then NAct.above
  else if k = Key.char '$' then NAct.toEnd
  else if k = Key.char '0' then NAct.toHome
  else if k = Key.char 'G' then NAct.toLast
  else NAct.ignore

/-- The effect of each `handle_normal_mode` branch. -/
def applyNAct : NAct → EdState → EdState
  | NAct.toInsert, s => { s with mode := CMode.insert }
  | NAct.addAfter, s => appendAfterCursor s
  | NAct.goLeft, s => moveLeft s
  | NAct.goDown, s => moveDown s
  | NAct.goUp, s => moveUp s
  | NAct.goRight, s => moveRight s
  | NAct.del, s => deleteCharUnderCursor s
  | NAct.below, s => openLineBelow s
  | NAct.above, s => openLineAbove s
  | NAct.toEnd, s => colEnd s
  | NAct.toHome, s => colHome s
  | NAct.toLast, s => gotoLastLine s
  | NAct.ignore, s => s

def normalKey (k : Key) (s : EdState) : EdState := applyNAct (normalAct k) s

/-- `Ted.handle_insert_mode` (ted.py:258-297) for a single key, after the
entry clamp.  Printable characters (32..126) are inserted; everything else
unhandled is ignored. -/
def insertKey (k : Key) (s : EdState) : EdState :=
  match k with
  | Key.esc => { s with mode := CMode.normal }
  | Key.backspace => backspace s
  | Key.enter => splitLine s
  | Key.left => moveLeft s
  | Key.right => moveRight s
  | Key.up => moveUp s
  | Key.down => moveDown s
  | Key.char c => if isPrintable c then insertChar c s else s

/-- One iteration of the `get_command` read loop (ted.py:299-318) in state
`cmdline acc`: Enter executes the command and returns to the normal
handler; Backspace drops the last accumulated character; Escape abandons
the command; characters 32..126 are appended; other keys are ignored. -/
def cmdlineKey (fs : FS) (acc : Line) (k : Key) (s : EdState) : EdState :=
  match k with
  | Key.enter => { processCommand fs acc s with mode := CMode.normal }
  | Key.backspace => { s with mode := CMode.cmdline acc.dropLast }
  | Key.esc => { s with mode := CMode.normal }
  | Key.char c =>
      if isPrintable c then { s with mode := CMode.cmdline (acc ++ [c]) } else s
  | _ => s

/-- One step of the session: `Ted.run`'s loop body (ted.py:365-376)
handling one key.  The loop exits once `quit` is set, and an uncaught
exception aborts it, so both freeze the state.  `display` (called before
each read of the outer loop, i.e. in modes `normal`/`insert`) clears the
transient message (ted.py:147); the nested loops behind `cmdline` and
`gpending` do not re-render.  `handle_normal_mode` and
`handle_insert_mode` clamp the cursor on entry; `g` enters `gpending`
(the blocking second `getch`), whose next key completes `gg` or is
discarded (ted.py:248-252); `:` enters the command read loop. -/
def step (fs : FS) (k : Key) (s : EdState) : EdState :=
  if s.quit || s.exc.isSome then s
  else
    match s.mode with
    | CMode.normal =>
        let s := ensureCursorInBounds { s with message := [] }
        if k = Key.char ':' then { s with mode := CMode.cmdline [] }
        else if k = Key.char 'g' then { s with mode := CMode.gpending }
        else normalKey k s
    | CMode.insert => insertKey k (ensureCursorInBounds { s with message := [] })
    | CMode.cmdline acc => cmdlineKey fs acc k s
    | CMode.gpending =>
        if k = Key.char 'g' then { gotoFirstLine s with mode := CMode.normal }
        else { s with mode := CMode.normal }

/-- Feed a key sequence to the session, one `step` per key. -/
def runKeys (fs : FS) (s : EdState) : List Key → EdState
  | [] => s
  | k :: ks => runKeys fs (step fs k s) ks

/-- `Ted.__init__` (ted.py:89-105): fresh state with buffer `[""]`, or the
split contents of the file when a filename was given and the file exists
(`text = some t`); cursor at the origin, normal mode, clean. -/
def initTed (filename : Option Line) (text : Option Line) : EdState :=
  { filename := filename,
    content := match text with
               | none => [[]]
               | some t => loadContent t,
    mode := CMode.normal, cursor_y := 0, cursor_x := 0,
    message := [], quit := false, dirty := false, exc := none }

/-! ### Syntax-rule selection (`TedConfig.get_rules_for_file`, ted-win.py:75-85) -/

/-- Buffer `["ab", "cd"]`, cursor (1,0), insert mode, clean. -/
def bsW : EdState :=
  { filename := none, content := [toL "ab", toL "cd"], mode := CMode.insert,
    cursor_y := 1, cursor_x := 0, message := [], quit := false, dirty := false,
    exc := none }

/-- Buffer `["abcd"]`, cursor (0,2), insert mode, clean. -/
def c7W : EdState :=
  { filename := none, content := [toL "abcd"], mode := CMode.insert,
    cursor_y := 0, cursor_x := 2, message := [], quit := false, dirty := false,
    exc := none }

/-- A filesystem on which every write succeeds. -/
def fsOk : FS := fun _ => none

/-- A filesystem on which every write raises with message `disk full`. -/
def fsFail : FS := fun _ => some (toL "disk full")

/-- Filename `"f"` set, one-line dirty buffer, normal mode. -/
def cmdW : EdState :=
  { filename := some (toL "f"), content := [toL "a"], mode := CMode.normal,
    cursor_y := 0, cursor_x := 1, message := [], quit := false, dirty := true,
    exc := none }

/-- No filename set (fresh `ted` with no argument), dirty buffer. -/
def noNameW : EdState :=
  { filename := none, content := [toL "a"], mode := CMode.normal,
    cursor_y := 0, cursor_x := 1, message := [], quit := false, dirty := true,
    exc := none }

/-- Buffer `["abc"]`, cursor (0,0), normal mode, clean. -/
def c5W : EdState :=
  { filename := none, content := [toL "abc"], mode := CMode.normal,
    cursor_y := 0, cursor_x := 0, message := [], quit := false, dirty := false,
    exc := none }

/-! ### List access helper lemmas -/

theorem lineAt_set_self {c : List Line} {i : Nat} (l : Line) (h : i < c.length) :
    lineAt (c.set i l) i = l := by
  unfold lineAt
  rw [List.getD_eq_getElem?_getD, List.getElem?_set_self h]
  rfl

theorem lineAt_set_ne {c : List Line} {i j : Nat} (l : Line) (h : i ≠ j) :
    lineAt (c.set i l) j = lineAt c j := by
  unfold lineAt
  rw [List.getD_eq_getElem?_getD, List.getElem?_set_ne h, ← List.getD_eq_getElem?_getD]

theorem length_insertAt {α : Type} {n : Nat} (a : α) {l : List α} (h : n ≤ l.length) :
    (insertAt n a l).length = l.length + 1 := by
  unfold insertAt
  simp only [List.length_append, List.length_take, List.length_cons, List.length_drop]
  omega

theorem lineAt_insertAt_lt {n j : Nat} (a : Line) (c : List Line)
    (hj : j < n) (hn : n ≤ c.length) :
    lineAt (insertAt n a c) j = lineAt c j := by
  unfold insertAt lineAt
  rw [List.getD_eq_getElem?_getD, List.getD_eq_getElem?_getD,
    List.getElem?_append_left (by simp [List.length_take]; omega), List.getElem?_take]
  simp [hj]

theorem lineAt_insertAt_self {n : Nat} (a : Line) (c : List Line) (hn : n ≤ c.length) :
    lineAt (insertAt n a c) n = a := by
  unfold insertAt lineAt
  rw [List.getD_eq_getElem?_getD,
    List.getElem?_append_right (by rw [List.length_take]; omega)]
  simp [List.length_take, Nat.min_eq_left hn]

theorem lineAt_eraseIdx_lt {i j : Nat} (c : List Line) (h : j < i) :
    lineAt (c.eraseIdx i) j = lineAt c j := by
  unfold lineAt
  rw [List.eraseIdx_eq_take_drop_succ, List.getD_eq_getElem?_getD,
    List.getD_eq_getElem?_getD, List.getElem?_append]
  simp only [List.length_take, List.getElem?_take]
  split
  · simp [h]
  · next hlen =>
      have hcj : c.length ≤ j := by omega
      rw [List.getElem?_drop, List.getElem?_eq_none hcj, List.getElem?_eq_none (by omega)]

/-- `Inv` only looks at the buffer and the cursor. -/
theorem inv_of_frame {s s' : EdState} (hc : s'.content = s.content)
    (hy : s'.cursor_y = s.cursor_y) (hx : s'.cursor_x = s.cursor_x)
    (h : Inv s) : Inv s' := by
  unfold Inv at *
  rw [hc, hy, hx]
  exact h

/-! ### The cursor invariant is established and preserved -/

theorem inv_ensureCursorInBounds {s : EdState} (h : s.content ≠ []) :
    Inv (ensureCursorInBounds s) := by
  have hlen : 0 < s.content.length := List.length_pos.mpr h
  unfold ensureCursorInBounds Inv
  dsimp only
  exact ⟨h, by omega, by omega⟩

theorem inv_insertChar {s : EdState} (c : Char) (h : Inv s) : Inv (insertChar c s) := by
  obtain ⟨hne, hy, hx⟩ := h
  unfold insertChar Inv
  dsimp only
  simp only [List.length_set]
  refine ⟨fun hnil => hne (by simpa using congrArg List.length hnil), hy, ?_⟩
  rw [lineAt_set_self _ hy]
  simp only [List.length_append, List.length_take, List.length_cons, List.length_drop]
  omega

theorem inv_deleteCharUnderCursor {s : EdState} (h : Inv s) :
    Inv (deleteCharUnderCursor s) := by
  obtain ⟨hne, hy, hx⟩ := h
  unfold deleteCharUnderCursor
  dsimp only
  split
  · next hlt =>
      unfold Inv
      dsimp only
      simp only [List.length_set]
      refine ⟨fun hnil => hne (by simpa using congrArg List.length hnil), hy, ?_⟩
      rw [lineAt_set_self _ hy]
      simp only [List.length_append, List.length_take, List.length_drop]
      omega
  · exact ⟨hne, hy, hx⟩

theorem inv_backspace {s : EdState} (h : Inv s) : Inv (backspace s) := by
  obtain ⟨hne, hy, hx⟩ := h
  have hlen : 0 < s.content.length := List.length_pos.mpr hne
  unfold backspace
  dsimp only
  split
  · next hxpos =>
      unfold Inv
      dsimp only
      simp only [List.length_set]
      refine ⟨fun hnil => hne (by simpa using congrArg List.length hnil), hy, ?_⟩
      rw [lineAt_set_self _ hy]
      simp only [List.length_append, List.length_take, List.length_drop]
      omega
  · split
    · next hxz hypos =>
        unfold Inv
        dsimp only
        have hset : (s.content.set (s.cursor_y - 1)
            (lineAt s.content (s.cursor_y - 1) ++ lineAt s.content s.cursor_y)).length
            = s.content.length := List.length_set ..
        have herase : ((s.content.set (s.cursor_y - 1)
            (lineAt s.content (s.cursor_y - 1) ++ lineAt s.content s.cursor_y)).eraseIdx
            s.cursor_y).length = s.content.length - 1 := by
          rw [List.length_eraseIdx]
          rw [hset]
          simp [hy]
        refine ⟨?_, ?_, ?_⟩
        · intro hnil
          have := congrArg List.length hnil
          rw [herase] at this
          simp at this
          omega
        · rw [herase]; omega
        · rw [lineAt_eraseIdx_lt _ (by omega), lineAt_set_self _ (by omega)]
          simp
    · exact ⟨hne, hy, hx⟩

theorem inv_splitLine {s : EdState} (h : Inv s) : Inv (splitLine s) := by
  obtain ⟨hne, hy, hx⟩ := h
  unfold splitLine Inv
  dsimp only
  have hlen : (insertAt (s.cursor_y + 1) ((lineAt s.content s.cursor_y).drop s.cursor_x)
      (s.content.set s.cursor_y ((lineAt s.content s.cursor_y).take s.cursor_x))).length
      = s.content.length + 1 := by
    rw [length_insertAt _ (by rw [List.length_set]; omega), List.length_set]
  refine ⟨?_, ?_, by omega⟩
  · intro hnil
    have := congrArg List.length hnil
    rw [hlen] at this
    simp at this
  · rw [hlen]; omega

theorem inv_openLineBelow {s : EdState} (h : Inv s) : Inv (openLineBelow s) := by
  obtain ⟨hne, hy, hx⟩ := h
  unfold openLineBelow Inv
  dsimp only
  have hlen : (insertAt (s.cursor_y + 1) [] s.content).length = s.content.length + 1 :=
    length_insertAt _ (by omega)
  refine ⟨?_, ?_, by omega⟩
  · intro hnil
    have := congrArg List.length hnil
    rw [hlen] at this
    simp at this
  · rw [hlen]; omega

theorem inv_openLineAbove {s : EdState} (h : Inv s) : Inv (openLineAbove s) := by
  obtain ⟨hne, hy, hx⟩ := h
  unfold openLineAbove Inv
  dsimp only
  have hlen : (insertAt s.cursor_y [] s.content).length = s.content.length + 1 :=
    length_insertAt _ (by omega)
  refine ⟨?_, ?_, by omega⟩
  · intro hnil
    have := congrArg List.length hnil
    rw [hlen] at this
    simp at this
  · rw [hlen]; omega

theorem inv_motion {s : EdState} (h : Inv s) :
    Inv (moveLeft s) ∧ Inv (moveRight s) ∧ Inv (moveUp s) ∧ Inv (moveDown s) ∧
    Inv (colHome s) ∧ Inv (colEnd s) ∧ Inv (gotoLastLine s) ∧ Inv (gotoFirstLine s) ∧
    Inv (appendAfterCursor s) := by
  obtain ⟨hne, hy, hx⟩ := h
  have hlen : 0 < s.content.length := List.length_pos.mpr hne
  unfold moveLeft moveRight moveUp moveDown colHome colEnd gotoLastLine gotoFirstLine
    appendAfterCursor Inv
  dsimp only
  refine ⟨⟨hne, hy, by omega⟩, ⟨hne, hy, by simp⟩, ⟨hne, by simpa using by omega, by simp⟩,
    ⟨hne, by simp; omega, by simp⟩, ⟨hne, hy, by omega⟩, ⟨hne, hy, le_refl _⟩,
    ⟨hne, by simp; omega, by simp⟩, ⟨hne, by omega, by simp⟩, ⟨hne, hy, by simp⟩⟩

theorem saveFile_content (fs : FS) (s : EdState) : (saveFile fs s).content = s.content := by
  unfold saveFile
  split <;> rfl

theorem saveFile_cursor_y (fs : FS) (s : EdState) :
    (saveFile fs s).cursor_y = s.cursor_y := by
  unfold saveFile
  split <;> rfl

theorem saveFile_cursor_x (fs : FS) (s : EdState) :
    (saveFile fs s).cursor_x = s.cursor_x := by
  unfold saveFile
  split <;> rfl

theorem processCommand_content (fs : FS) (cmd : Line) (s : EdState) :
    (processCommand fs cmd s).content = s.content := by
  unfold processCommand
  split_ifs <;> simp [saveFile_content]

theorem processCommand_cursor_y (fs : FS) (cmd : Line) (s : EdState) :
    (processCommand fs cmd s).cursor_y = s.cursor_y := by
  unfold processCommand
  split_ifs <;> simp [saveFile_cursor_y]

theorem processCommand_cursor_x (fs : FS) (cmd : Line) (s : EdState) :
    (processCommand fs cmd s).cursor_x = s.cursor_x := by
  unfold processCommand
  split_ifs <;> simp [saveFile_cursor_x]

theorem inv_applyNAct {s : EdState} (a : NAct) (h : Inv s) : Inv (applyNAct a s) := by
  obtain ⟨hml, hmr, hmu, hmd, hch, hce, hgl, _, hac⟩ := inv_motion h
  cases a
  · exact inv_of_frame rfl rfl rfl h
  · exact hac
  · exact hml
  · exact hmd
  · exact hmu
  · exact hmr
  · exact inv_deleteCharUnderCursor h
  · exact inv_openLineBelow h
  · exact inv_openLineAbove h
  · exact hce
  · exact hch
  · exact hgl
  · exact h

theorem inv_normalKey {s : EdState} (k : Key) (h : Inv s) : Inv (normalKey k s) :=
  inv_applyNAct (normalAct k) h

theorem inv_insertKey {s : EdState} (k : Key) (h : Inv s) : Inv (insertKey k s) := by
  obtain ⟨hml, hmr, hmu, hmd, _, _, _, _, _⟩ := inv_motion h
  unfold insertKey
  split <;>
    first
      | exact inv_of_frame rfl rfl rfl h
      | exact inv_backspace h
      | exact inv_splitLine h
      | exact hml
      | exact hmr
      | exact hmu
      | exact hmd
      | (split <;> first | exact inv_insertChar _ h | exact h)

theorem inv_cmdlineKey {fs : FS} {acc : Line} {s : EdState} (k : Key) (h : Inv s) :
    Inv (cmdlineKey fs acc k s) := by
  unfold cmdlineKey
  split <;>
    first
      | exact inv_of_frame (processCommand_content fs acc s)
          (processCommand_cursor_y fs acc s) (processCommand_cursor_x fs acc s) h
      | exact inv_of_frame rfl rfl rfl h
      | (split <;> exact inv_of_frame rfl rfl rfl h)

theorem inv_step (fs : FS) (k : Key) {s : EdState} (h : Inv s) : Inv (step fs k s) := by
  have hens : Inv (ensureCursorInBounds { s with message := [] }) :=
    inv_ensureCursorInBounds (s := { s with message := [] }) h.1
  unfold step
  split
  · exact h
  · split
    · dsimp only
      split_ifs
      · exact inv_of_frame rfl rfl rfl hens
      · exact inv_of_frame rfl rfl rfl hens
      · exact inv_normalKey _ hens
    · exact inv_insertKey _ hens
    · exact inv_cmdlineKey _ h
    · split
      · exact inv_of_frame rfl rfl rfl ((inv_motion h).2.2.2.2.2.2.2.1)
      · exact inv_of_frame rfl rfl rfl h

theorem inv_runKeys (fs : FS) {s : EdState} (h : Inv s) :
    ∀ ks : List Key, Inv (runKeys fs s ks) := by
  intro ks
  induction ks generalizing s with
  | nil => exact h
  | cons k ks ih => exact ih (inv_step fs k h)

theorem loadContent_ne_nil (t : Line) : loadContent t ≠ [] := by
  unfold loadContent
  dsimp only
  split
  · simp
  · assumption

theorem inv_initTed (filename : Option Line) (text : Option Line) :
    Inv (initTed filename text) := by
  unfold initTed Inv
  dsimp only
  have hne : (match text with
      | none => [[]]
      | some t => loadContent t) ≠ ([] : List Line) := by
    cases text with
    | none => simp
    | some t => exact loadContent_ne_nil t
  exact ⟨hne, List.length_pos.mpr hne, Nat.zero_le _⟩

/-- C1: starting from any initial editor state (empty buffer or loaded
file) and feeding any key sequence — which dispatches every buffer
operation: character insertion, `x`-deletion, backspace, line split,
`o`/`O`, all cursor motions, and command processing — the resulting state
always has a non-empty line sequence, `cursor_y < len(content)` and
`cursor_x ≤ len(content[cursor_y])`. -/
theorem claim_buffer_invariant (fs : FS) (filename : Option Line)
    (text : Option Line) (keys : List Key) :
    Inv (runKeys fs (initTed filename text) keys) :=
  inv_runKeys fs (inv_initTed filename text) keys

/-! ### C3: save then load round-trips the buffer -/

theorem joinLines_ne_nil {content : List Line} (hne : content ≠ [])
    (hnn : ∀ l ∈ content, '\n' ∉ l) (hone : content ≠ [[]]) :
    joinLines content ≠ [] := by
  intro h0
  apply hone
  have hsplit : (joinLines content).splitOn '\n' = content :=
    List.splitOn_intercalate content '\n' hnn hne
  rw [h0, List.splitOn_nil] at hsplit
  exact hsplit.symm

/-- C3: writing the buffer (`"\n".join`) and reading it back
(`splitlines`, with the empty-file coercion to `[""]`) reproduces the
line sequence exactly, up to the trailing-newline normalization
`normTrailing`; the normalization touches nothing but a possible final
empty line (the buffer image of a trailing newline in the file). -/
theorem claim_save_load_round_trip (content : List Line) (hne : content ≠ [])
    (hfree : ∀ l ∈ content, ∀ c ∈ l, isPyLineBreak c = false) :
    loadContent (joinLines content) = normTrailing content ∧
      (normTrailing content = content ∨ content = normTrailing content ++ [[]]) := by
  have hnn : ∀ l ∈ content, '\n' ∉ l := by
    intro l hl hmem
    have := hfree l hl '\n' hmem
    simp [isPyLineBreak] at this
  have hsplit : (joinLines content).splitOn '\n' = content :=
    List.splitOn_intercalate content '\n' hnn hne
  by_cases hone : content = [[]]
  · subst hone
    refine ⟨by decide, Or.inl (by decide)⟩
  · have hjoin : joinLines content ≠ [] := joinLines_ne_nil hne hnn hone
    have hlast_eq : content.getLastD [] = content.getLast hne := by
      rw [List.getLastD_eq_getLast?, List.getLast?_eq_getLast content hne]
      rfl
    unfold loadContent splitlines
    dsimp only
    rw [if_neg hjoin, hsplit]
    by_cases hlast : content.getLastD [] = []
    · have hlen2 : 2 ≤ content.length := by
        rcases content with _ | ⟨a, _ | ⟨b, t⟩⟩
        · exact absurd rfl hne
        · exfalso
          apply hone
          have : a = [] := by simpa using hlast
          rw [this]
        · simp
      have hdrop_ne : content.dropLast ≠ [] := by
        intro h0
        have := congrArg List.length h0
        rw [List.length_dropLast] at this
        simp at this
        omega
      rw [if_pos hlast, if_neg hdrop_ne]
      unfold normTrailing
      rw [if_pos ⟨hlen2, hlast⟩]
      refine ⟨rfl, Or.inr ?_⟩
      have hcat := List.dropLast_append_getLast hne
      rw [← hlast_eq, hlast] at hcat
      exact hcat.symm
    · rw [if_neg hlast, if_neg hne]
      unfold normTrailing
      rw [if_neg (by intro hc; exact hlast hc.2)]
      exact ⟨rfl, Or.inl rfl⟩

/-- Witness for C3 at the concrete buffer `["a", ""]`. -/
theorem claim_save_load_round_trip_witness :
    loadContent (joinLines [toL "a", []]) = normTrailing [toL "a", []] ∧
      (normTrailing [toL "a", []] = [toL "a", []] ∨
        [toL "a", []] = normTrailing [toL "a", []] ++ [[]]) :=
  claim_save_load_round_trip [toL "a", []] (by decide) (by decide)

/-! ### C4 and C7: the backspace contract and split/backspace inversion -/

/-- Merging line `y` into line `y-1` (set the merged text at `y-1`, erase
row `y`) replaces rows `y-1` and `y` by the single merged row. -/
theorem set_eraseIdx_merge (c : List Line) (m : Line) (y : Nat)
    (hy0 : 0 < y) (hy : y < c.length) :
    (c.set (y - 1) m).eraseIdx y = c.take (y - 1) ++ m :: c.drop (y + 1) := by
  apply List.ext_getElem?
  intro n
  rw [List.getElem?_eraseIdx, List.getElem?_append]
  simp only [List.length_take]
  rcases lt_trichotomy n (y - 1) with h1 | h1 | h1
  · rw [if_pos (by omega), if_pos (by omega), List.getElem?_set_ne (by omega),
      List.getElem?_take, if_pos h1]
  · subst h1
    rw [if_pos (by omega), if_neg (by omega), List.getElem?_set_self (by omega)]
    have hz : y - 1 - min (y - 1) c.length = 0 := by omega
    rw [hz, List.getElem?_cons_zero]
  · rw [if_neg (by omega), if_neg (by omega), List.getElem?_set_ne (by omega)]
    have hidx : n - min (y - 1) c.length = (n - y) + 1 := by omega
    rw [hidx, List.getElem?_cons_succ, List.getElem?_drop]
    congr 1
    omega

/-- Erasing row `y` of a buffer obtained by inserting at `y` (after
restoring row `y-1+1`'s neighbour) undoes the insertion; stated in the
exact composite shape produced by `backspace ∘ splitLine`. -/
theorem insert_set_eraseIdx_cancel (c : List Line) (y : Nat) (pre suf : Line)
    (hy : y < c.length) (hline : pre ++ suf = lineAt c y) :
    ((insertAt (y + 1) suf (c.set y pre)).set y (pre ++ suf)).eraseIdx (y + 1) = c := by
  have hlen' : (c.set y pre).length = c.length := List.length_set ..
  apply List.ext_getElem?
  intro n
  rw [List.getElem?_eraseIdx]
  unfold insertAt
  rcases lt_trichotomy n y with h1 | h1 | h1
  · rw [if_pos (by omega), List.getElem?_set_ne (by omega),
      List.getElem?_append_left (by rw [List.length_take]; omega),
      List.getElem?_take, if_pos (by omega), List.getElem?_set_ne (by omega)]
  · subst h1
    rw [if_pos (by omega),
      List.getElem?_set_self (by
        rw [List.length_append, List.length_take, List.length_cons, List.length_drop]
        omega)]
    rw [hline]
    unfold lineAt at *
    rw [List.getD_eq_getElem c [] hy]
    rw [List.getElem?_eq_getElem hy]
  · rw [if_neg (by omega), List.getElem?_set_ne (by omega),
      List.getElem?_append_right (by rw [List.length_take]; omega)]
    have hidx : n + 1 - (List.take (y + 1) (c.set y pre)).length = (n - y - 1) + 1 := by
      rw [List.length_take]
      omega
    rw [hidx, List.getElem?_cons_succ, List.getElem?_drop, List.getElem?_set_ne (by omega)]
    congr 1
    omega

/-- C4: the three-way backspace contract.  With the cursor inside a line,
the unit left of the cursor is removed, the cursor steps back one column
and the buffer is marked dirty; at column 0 of a later row, the current
line is appended to the previous one, the current row is deleted, and the
cursor lands at the previous line's former end; at (0,0) nothing at all
changes. -/
theorem claim_backspace_cases (s : EdState) (h : Inv s) :
    (0 < s.cursor_x →
      (backspace s).content =
          s.content.set s.cursor_y ((lineAt s.content s.cursor_y).eraseIdx (s.cursor_x - 1)) ∧
        (backspace s).cursor_x = s.cursor_x - 1 ∧
        (backspace s).cursor_y = s.cursor_y ∧
        (backspace s).dirty = true) ∧
    (s.cursor_x = 0 → 0 < s.cursor_y →
      (backspace s).content =
          s.content.take (s.cursor_y - 1) ++
            (lineAt s.content (s.cursor_y - 1) ++ lineAt s.content s.cursor_y) ::
              s.content.drop (s.cursor_y + 1) ∧
        (backspace s).cursor_y = s.cursor_y - 1 ∧
        (backspace s).cursor_x = (lineAt s.content (s.cursor_y - 1)).length ∧
        (backspace s).dirty = true) ∧
    (s.cursor_x = 0 → s.cursor_y = 0 → backspace s = s) := by
  obtain ⟨hne, hy, hx⟩ := h
  refine ⟨?_, ?_, ?_⟩
  · intro hxpos
    unfold backspace
    rw [if_pos hxpos]
    dsimp only
    refine ⟨?_, rfl, rfl, rfl⟩
    congr 1
    rw [List.eraseIdx_eq_take_drop_succ]
    congr 2
    omega
  · intro hx0 hypos
    unfold backspace
    rw [if_neg (by omega), if_pos hypos]
    dsimp only
    exact ⟨set_eraseIdx_merge s.content _ s.cursor_y hypos hy, rfl, rfl, rfl⟩
  · intro hx0 hy0
    unfold backspace
    rw [if_neg (by omega), if_neg (by omega)]

/-- Witness for C4 at buffer `["ab", "cd"]`, cursor (1,0): the merge case
fires, the other two cases hold vacuously. -/
theorem claim_backspace_cases_witness :
    (0 < bsW.cursor_x →
      (backspace bsW).content =
          bsW.content.set bsW.cursor_y ((lineAt bsW.content bsW.cursor_y).eraseIdx (bsW.cursor_x - 1)) ∧
        (backspace bsW).cursor_x = bsW.cursor_x - 1 ∧
        (backspace bsW).cursor_y = bsW.cursor_y ∧
        (backspace bsW).dirty = true) ∧
    (bsW.cursor_x = 0 → 0 < bsW.cursor_y →
      (backspace bsW).content =
          bsW.content.take (bsW.cursor_y - 1) ++
            (lineAt bsW.content (bsW.cursor_y - 1) ++ lineAt bsW.content bsW.cursor_y) ::
              bsW.content.drop (bsW.cursor_y + 1) ∧
        (backspace bsW).cursor_y = bsW.cursor_y - 1 ∧
        (backspace bsW).cursor_x = (lineAt bsW.content (bsW.cursor_y - 1)).length ∧
        (backspace bsW).dirty = true) ∧
    (bsW.cursor_x = 0 → bsW.cursor_y = 0 → backspace bsW = bsW) :=
  claim_backspace_cases bsW (by decide)

/-- C7: splitting a line and immediately backspacing from the new line's
start restores the original buffer and cursor; only the dirty flag is
(re)set. -/
theorem claim_split_backspace_inverse (s : EdState) (h : Inv s) :
    backspace (splitLine s) = { s with dirty := true } := by
  obtain ⟨hne, hy, hx⟩ := h
  have hsetlen : (s.content.set s.cursor_y
      ((lineAt s.content s.cursor_y).take s.cursor_x)).length = s.content.length :=
    List.length_set ..
  have ha : lineAt (insertAt (s.cursor_y + 1) ((lineAt s.content s.cursor_y).drop s.cursor_x)
      (s.content.set s.cursor_y ((lineAt s.content s.cursor_y).take s.cursor_x)))
      s.cursor_y = (lineAt s.content s.cursor_y).take s.cursor_x := by
    rw [lineAt_insertAt_lt _ _ (Nat.lt_succ_self _) (by omega), lineAt_set_self _ hy]
  have hb : lineAt (insertAt (s.cursor_y + 1) ((lineAt s.content s.cursor_y).drop s.cursor_x)
      (s.content.set s.cursor_y ((lineAt s.content s.cursor_y).take s.cursor_x)))
      (s.cursor_y + 1) = (lineAt s.content s.cursor_y).drop s.cursor_x :=
    lineAt_insertAt_self _ _ (by omega)
  unfold splitLine backspace
  dsimp only
  rw [if_neg (by omega), if_pos (Nat.succ_pos _)]
  simp only [Nat.add_sub_cancel, ha, hb]
  simp only [EdState.mk.injEq]
  refine ⟨trivial, ?_, trivial, trivial, ?_, trivial, trivial, trivial, trivial⟩
  · exact insert_set_eraseIdx_cancel s.content s.cursor_y _ _ hy (List.take_append_drop ..)
  · rw [List.length_take]
    omega

/-- Witness for C7 at buffer `["abcd"]`, cursor (0,2). -/
theorem claim_split_backspace_inverse_witness :
    backspace (splitLine c7W) = { c7W with dirty := true } :=
  claim_split_backspace_inverse c7W (by decide)

/-! ### C8: a failed save changes nothing but the message -/

theorem saveFile_filename (fs : FS) (s : EdState) :
    (saveFile fs s).filename = s.filename := by
  unfold saveFile
  split <;> rfl

/-- C8: when the write raises with message `e`, `save_file` sets the
message to `Error writing file: e` and leaves the line sequence, cursor,
dirty flag, quit flag and filename untouched. -/
theorem claim_save_failure_atomic (fs : FS) (s : EdState) (e : Line)
    (hfail : fs s.filename = some e) :
    (saveFile fs s).message = toL "Error writing file: " ++ e ∧
    (saveFile fs s).content = s.content ∧
    (saveFile fs s).cursor_y = s.cursor_y ∧
    (saveFile fs s).cursor_x = s.cursor_x ∧
    (saveFile fs s).dirty = s.dirty ∧
    (saveFile fs s).quit = s.quit ∧
    (saveFile fs s).filename = s.filename := by
  unfold saveFile
  rw [hfail]
  exact ⟨rfl, rfl, rfl, rfl, rfl, rfl, rfl⟩

/-- Witness for C8 on the failing filesystem and the dirty state `cmdW`. -/
theorem claim_save_failure_atomic_witness :
    (saveFile fsFail cmdW).message = toL "Error writing file: " ++ toL "disk full" ∧
    (saveFile fsFail cmdW).content = cmdW.content ∧
    (saveFile fsFail cmdW).cursor_y = cmdW.cursor_y ∧
    (saveFile fsFail cmdW).cursor_x = cmdW.cursor_x ∧
    (saveFile fsFail cmdW).dirty = cmdW.dirty ∧
    (saveFile fsFail cmdW).quit = cmdW.quit ∧
    (saveFile fsFail cmdW).filename = cmdW.filename :=
  claim_save_failure_atomic fsFail cmdW (toL "disk full") (by decide)

/-! ### C10: `w <name>` installs the filename before the save attempt -/

/-- C10: `w <name>` (for a name carrying no surrounding whitespace) sets
`self.filename` to the name and only then runs `save_file`, so the new
filename persists whatever the save's outcome — the write oracle `fs` is
arbitrary here, including failing ones, and `save_file` never restores
the old name. -/
theorem claim_w_name_sets_filename (fs : FS) (s : EdState) (name : Line)
    (hstrip : pyStrip name = name) :
    (processCommand fs ('w' :: ' ' :: name) s).filename = some name ∧
    processCommand fs ('w' :: ' ' :: name) s =
      saveFile fs { s with filename := some name } := by
  have hmain : processCommand fs ('w' :: ' ' :: name) s =
      saveFile fs { s with filename := some name } := by
    unfold processCommand
    simp [hstrip]
  exact ⟨by rw [hmain, saveFile_filename], hmain⟩

/-- Witness for C10: `w nm` on the failing filesystem still leaves
filename `nm` installed. -/
theorem claim_w_name_sets_filename_witness :
    (processCommand fsFail ('w' :: ' ' :: toL "nm") cmdW).filename = some (toL "nm") ∧
    processCommand fsFail ('w' :: ' ' :: toL "nm") cmdW =
      saveFile fsFail { cmdW with filename := some (toL "nm") } :=
  claim_w_name_sets_filename fsFail cmdW (toL "nm") (by decide)

/-! ### C2: `wq` quits even when the save fails -/

/-- C2 counterexample: with filename `f` set, a dirty buffer and a write
that raises `disk full`, the command `wq` reports the write error yet
still sets the quit flag — the editor does not stay open on save
failure, contradicting the claim. -/
theorem claim_wq_counterexample :
    (processCommand fsFail ['w', 'q'] cmdW).quit = true ∧
    (processCommand fsFail ['w', 'q'] cmdW).message =
      toL "Error writing file: disk full" ∧
    (processCommand fsFail ['w', 'q'] cmdW).dirty = true := by decide

/-- C2 amended: `wq` with a truthy filename runs `save_file` and then
sets quit unconditionally (also after a failed save); with a falsy
filename it calls the method `get_filename_for_save`, which `ted.py`
does not define, so an `AttributeError` aborts the session. -/
theorem claim_wq_amended (fs : FS) (s : EdState) :
    (truthyFilename s.filename = true →
      processCommand fs ['w', 'q'] s = { saveFile fs s with quit := true }) ∧
    (truthyFilename s.filename = false →
      processCommand fs ['w', 'q'] s =
        { s with exc := some (PyExc.attrError (toL "get_filename_for_save")) }) := by
  unfold processCommand
  constructor <;> intro htr <;> simp [htr]

/-- Witness for C2 (amended) on the failing filesystem. -/
theorem claim_wq_amended_witness :
    processCommand fsFail ['w', 'q'] cmdW = { saveFile fsFail cmdW with quit := true } :=
  (claim_wq_amended fsFail cmdW).1 (by decide)

/-! ### C6: `w` with no filename crashes instead of prompting -/

/-- C6: evaluating `process_command("w")` with no filename set: the code
stores the prompt message, then calls `self.get_command_input()` — a
method `ted.py` never defines — so an `AttributeError` is raised and the
session aborts (`run` catches it, restores the terminal and exits 1)
instead of prompting for a name and saving as the claim describes. -/
theorem claim_w_no_filename_attr_error :
    (processCommand fsOk ['w'] noNameW).exc =
      some (PyExc.attrError (toL "get_command_input")) ∧
    (processCommand fsOk ['w'] noNameW).message = toL "Enter filename: " ∧
    (processCommand fsOk ['w'] noNameW).quit = false := by decide

/-! ### C5: the second key after `g` is dropped, not replayed -/

/-- C5 counterexample: from buffer `["abc"]`, cursor (0,0), normal mode,
the keys `g` then `x` leave the buffer unchanged — the `x` is swallowed
by the pending-`g` read — whereas the claim requires `x` to be processed
as fresh input, which alone deletes a character. -/
theorem claim_gg_counterexample :
    (runKeys fsOk c5W [Key.char 'g', Key.char 'x']).content = [toL "abc"] ∧
    (runKeys fsOk c5W [Key.char 'x']).content = [toL "bc"] := by decide

/-- Replacing a state's controller mode by its own value is the
identity. -/
theorem withMode_self {X : EdState} {m : CMode} (h : X.mode = m) :
    { X with mode := m } = X := by
  cases X
  dsimp only at h
  rw [h]

/-- In normal mode the key `g` only parks the controller in the pending
second-key read (after the render's message clear and the entry
clamp). -/
theorem step_g_normal (fs : FS) (s : EdState) (hmode : s.mode = CMode.normal)
    (hq : s.quit = false) (hexc : s.exc = none) :
    step fs (Key.char 'g') s =
      { ensureCursorInBounds { s with message := [] } with mode := CMode.gpending } := by
  simp [step, hq, hexc, hmode]

/-- In the pending-`g` state the next key either completes `gg` or is
discarded; either way the controller returns to normal mode. -/
theorem step_gpending (fs : FS) (k : Key) (s : EdState) (hmode : s.mode = CMode.gpending)
    (hq : s.quit = false) (hexc : s.exc = none) :
    step fs k s =
      if k = Key.char 'g' then { gotoFirstLine s with mode := CMode.normal }
      else { s with mode := CMode.normal } := by
  simp [step, hq, hexc, hmode]

/-- C5 amended: after `g` in normal mode the controller reads exactly one
more key; a second `g` moves the cursor to row 0 with the column
reclamped to line 0's length (`gotoFirstLine`), while any other key is
dropped entirely — the session continues on the remaining keys from the
clamped state, the dropped key having had no effect at all. -/
theorem claim_gg_amended (fs : FS) (s : EdState) (k : Key) (ks : List Key)
    (hmode : s.mode = CMode.normal) (hq : s.quit = false) (hexc : s.exc = none)
    (hkg : k ≠ Key.char 'g') :
    runKeys fs s (Key.char 'g' :: k :: ks) =
      runKeys fs (ensureCursorInBounds { s with message := [] }) ks ∧
    runKeys fs s (Key.char 'g' :: Key.char 'g' :: ks) =
      runKeys fs (gotoFirstLine (ensureCursorInBounds { s with message := [] })) ks := by
  constructor
  · show runKeys fs (step fs k (step fs (Key.char 'g') s)) ks = _
    rw [step_g_normal fs s hmode hq hexc,
      step_gpending fs k
        { ensureCursorInBounds { s with message := [] } with mode := CMode.gpending }
        rfl hq hexc,
      if_neg hkg]
    congr 1
    exact withMode_self
      (show (ensureCursorInBounds { s with message := [] }).mode = CMode.normal from hmode)
  · show runKeys fs (step fs (Key.char 'g') (step fs (Key.char 'g') s)) ks = _
    rw [step_g_normal fs s hmode hq hexc,
      step_gpending fs (Key.char 'g')
        { ensureCursorInBounds { s with message := [] } with mode := CMode.gpending }
        rfl hq hexc,
      if_pos rfl]
    congr 1
    exact withMode_self
      (show (gotoFirstLine (ensureCursorInBounds { s with message := [] })).mode
          = CMode.normal from hmode)

/-- Witness for C5 (amended) with second key `x` and no further input. -/
theorem claim_gg_amended_witness :
    runKeys fsOk c5W [Key.char 'g', Key.char 'x'] =
      runKeys fsOk (ensureCursorInBounds { c5W with message := [] }) [] ∧
    runKeys fsOk c5W [Key.char 'g', Key.char 'g'] =
      runKeys fsOk (gotoFirstLine (ensureCursorInBounds { c5W with message := [] })) [] :=
  claim_gg_amended fsOk c5W (Key.char 'x') [] rfl rfl rfl (by decide)

/-! ### C9: rule selection is regex-translated, not literal, matching -/

end Ted
